import Mathlib

/-!
Verification of the phone-parser bot (`server.js` and the unnamed `Database`
module) against its specification.

Strings are modelled as `List Char` (a JS string is a sequence of UTF-16
code units; every operation used by the program is character-wise).
Timestamps (`CURRENT_TIMESTAMP`) are modelled as a `Nat` logical clock
passed explicitly to each store operation.

`src/server.js` contains two concatenated variants of the server.  Where the
two variants differ (the `saveContact` conflict policy and the PUT handler),
both are embedded, with a suffix naming the variant.
-/

namespace PhoneBot

/-- Character test for the JS regex class `\d`, i.e. the ASCII digits
(code points 48 to 57). -/
def isDig (c : Char) : Bool :=
  decide (48 ≤ c.toNat) && decide (c.toNat ≤ 57)

/-- Character test for the JS regex class `\s` (ECMAScript WhiteSpace and
LineTerminator code points); the same set is removed by `String.prototype.trim`. -/
def isWsChar (c : Char) : Bool :=
  decide (c.toNat = 9 ∨ c.toNat = 10 ∨ c.toNat = 11 ∨ c.toNat = 12 ∨ c.toNat = 13 ∨
    c.toNat = 32 ∨ c.toNat = 160 ∨ c.toNat = 5760 ∨ c.toNat = 8192 ∨ c.toNat = 8193 ∨
    c.toNat = 8194 ∨ c.toNat = 8195 ∨ c.toNat = 8196 ∨ c.toNat = 8197 ∨ c.toNat = 8198 ∨
    c.toNat = 8199 ∨ c.toNat = 8200 ∨ c.toNat = 8201 ∨ c.toNat = 8202 ∨ c.toNat = 8232 ∨
    c.toNat = 8233 ∨ c.toNat = 8239 ∨ c.toNat = 8287 ∨ c.toNat = 12288 ∨ c.toNat = 65279)

/-- Character test for the regex class `[\d\s\-\(\)]` used by the phone
extractor of `PhoneParser.parsePhoneNumbers`. -/
def isClassChar (c : Char) : Bool :=
  isDig c || isWsChar c || decide (c.toNat = 45) || decide (c.toNat = 40) ||
    decide (c.toNat = 41)

/-- Embedding of JS `String.prototype.trim`: remove leading and trailing
whitespace characters. -/
def trimL (l : List Char) : List Char :=
  ((l.dropWhile isWsChar).reverse.dropWhile isWsChar).reverse

/-- Embedding of JS `String.prototype.startsWith` restricted to list
arguments: `startsWithC s p` holds when `p` is an initial segment of `s`. -/
def startsWithC : List Char → List Char → Bool
  | _, [] => true
  | [], _ :: _ => false
  | c :: cs, p :: ps => c == p && startsWithC cs ps

/-- Embedding of `phone.replace(/[^\d+]/g, '')` from
`PhoneParser.normalizePhone` (`server.js` line 225): keep the digits and
every `+`, delete everything else. -/
def stripPhone (cs : List Char) : List Char :=
  cs.filter (fun c => isDig c || c == '+')

/-- Embedding of the regex test `/^9\d{9}$/` (`server.js` line 231). -/
def re9d9 (n : List Char) : Bool :=
  match n with
  | c :: rest => c == '9' && decide (rest.length = 9) && rest.all isDig
  | [] => false

/-- Embedding of the regex test `/^\d{10}$/` (`server.js` line 233). -/
def re10d (n : List Char) : Bool :=
  decide (n.length = 10) && n.all isDig

/-- Embedding of `PhoneParser.normalizePhone` (`server.js` lines 224 to 238). -/
def normalizePhone (phone : List Char) : List Char :=
  let n := stripPhone phone
  if startsWithC n ['8'] then '+' :: '7' :: n.drop 1
  else if startsWithC n ['7'] && !startsWithC n ['+', '7'] then '+' :: n
  else if re9d9 n then '+' :: '7' :: n
  else if re10d n then '+' :: '7' :: n
  else n

/-- Index of the last possible final digit for the greedy body
`\d[\d\s\-\(\)]{7,}\d`: among the characters of the greedy class run `run`,
the largest index `i` with `7 ≤ i` holding a digit.  Greedy matching with
backtracking of `{7,}` selects exactly this position for the closing `\d`. -/
def lastGoodIdx (run : List Char) : Option Nat :=
  ((List.range run.length).filter (fun i => decide (7 ≤ i) && isDig (run.getD i ' '))).getLast?

/-- Attempt of the regex body `\d[\d\s\-\(\)]{7,}\d` at the head of `cs`:
a leading digit, a greedy run of class characters, and a final digit placed
by backtracking.  Returns the matched characters and the remaining suffix. -/
def matchBody : List Char → Option (List Char × List Char)
  | [] => none
  | d :: rest =>
    if isDig d then
      let run := rest.takeWhile isClassChar
      match lastGoodIdx run with
      | some p => some (d :: run.take (p + 1), run.drop (p + 1) ++ rest.dropWhile isClassChar)
      | none => none
    else none

/-- Fuelled global scan of `text.match(phoneRegex)` for
`/(?:\+?\d[\d\s\-\(\)]{7,}\d|\d[\d\s\-\(\)]{7,}\d)/g`: try each start
position left to right; at a `+` the body must start at the next character;
after a match continue after its end.  The fuel only bounds the recursion;
`scan` supplies `cs.length`, which exceeds the number of steps because every
step consumes at least one character. -/
def scanFuel : Nat → List Char → List (List Char)
  | 0, _ => []
  | _ + 1, [] => []
  | f + 1, c :: rest =>
    if c == '+' then
      match matchBody rest with
      | some (m, r) => ('+' :: m) :: scanFuel f r
      | none => scanFuel f rest
    else if isDig c then
      match matchBody (c :: rest) with
      | some (m, r) => m :: scanFuel f r
      | none => scanFuel f rest
    else scanFuel f rest

/-- All non-overlapping matches of the phone regex in `cs`, left to right. -/
def scan (cs : List Char) : List (List Char) :=
  scanFuel cs.length cs

/-- One element of the result of `PhoneParser.parsePhoneNumbers`. -/
structure ParsedPhone where
  original : List Char
  normalized : List Char
deriving DecidableEq, Repr

/-- Embedding of `PhoneParser.parsePhoneNumbers` (`server.js` lines 240 to
248): each regex match yields `{original: phone.trim(), normalized:
this.normalizePhone(phone)}` (note: the source normalizes the untrimmed
match). -/
def parsePhoneNumbers (text : List Char) : List ParsedPhone :=
  (scan text).map (fun m => ParsedPhone.mk (trimL m) (normalizePhone m))

/-- Shape checker for a produced match: after an optional leading `+`, the
match starts and ends on a digit, its interior characters are drawn from the
class `[\d\s\-\(\)]`, and the interior has at least `minI` characters. -/
def matchShape (minI : Nat) (m : List Char) : Bool :=
  let core := if m.headD ' ' == '+' then m.tail else m
  match core with
  | [] => false
  | d :: rest =>
    isDig d &&
      (match rest.getLast? with
       | some e => isDig e
       | none => false) &&
      rest.dropLast.all isClassChar &&
      decide (minI ≤ rest.dropLast.length)

/-- A row of the `contacts` table (`id` autoincrement primary key, `phone`
and `normalized_phone` unique and non-null, the rest nullable). -/
structure Contact where
  id : Nat
  phone : List Char
  normalizedPhone : List Char
  name : Option (List Char)
  company : Option (List Char)
  context : Option (List Char)
  createdAt : Nat
  updatedAt : Nat
deriving DecidableEq, Repr

/-- A row of the append-only `parsed_messages` table. -/
structure ParsedMsg where
  id : Nat
  messageId : Int
  chatId : Int
  contactId : Option Nat
  originalText : Option (List Char)
  createdAt : Nat
deriving DecidableEq, Repr

/-- The SQLite database: rows in rowid (insertion) order plus the next
autoincrement keys for the two tables. -/
structure DB where
  contacts : List Contact
  messages : List ParsedMsg
  nextContactId : Nat
  nextMessageId : Nat
deriving DecidableEq, Repr

/-- A freshly created database (SQLite autoincrement starts at 1). -/
def emptyDB : DB := DB.mk [] [] 1 1

/-- Embedding of `database.saveContact` from the first `server.js` variant
(lines 73 to 90): `INSERT OR REPLACE INTO contacts ...`.  SQLite deletes
every row conflicting on either unique column (`phone`, `normalized_phone`)
and inserts a fresh row with a fresh rowid; `created_at` and `updated_at`
default to the current timestamp.  The source resolves `this.lastID`, which
no verified claim consumes, so the embedding returns only the new state. -/
def saveContactReplace (now : Nat) (phone norm : List Char)
    (name company ctx : Option (List Char)) (db : DB) : DB :=
  let remaining := db.contacts.filter
    (fun c => !(decide (c.phone = phone) || decide (c.normalizedPhone = norm)))
  { db with
    contacts := remaining ++ [Contact.mk db.nextContactId phone norm name company ctx now now]
    nextContactId := db.nextContactId + 1 }

/-- Embedding of `Database.saveContact` from the unnamed module (lines 37 to
49) and of `database.saveContact` from the second `server.js` variant
(lines 648 to 660): `INSERT OR IGNORE INTO contacts ...`.  A conflict on
either unique column makes the insert a silent no-op. -/
def saveContactIgnore (now : Nat) (phone norm : List Char)
    (name company ctx : Option (List Char)) (db : DB) : DB :=
  if db.contacts.any
      (fun c => decide (c.phone = phone) || decide (c.normalizedPhone = norm)) then
    db
  else
    { db with
      contacts := db.contacts ++ [Contact.mk db.nextContactId phone norm name company ctx now now]
      nextContactId := db.nextContactId + 1 }

/-- Embedding of `database.findContactByPhone`:
`SELECT * FROM contacts WHERE normalized_phone = ?` through `db.get`, which
yields the first matching row in rowid order, or nothing. -/
def findContactByPhone (phone : List Char) (db : DB) : Option Contact :=
  db.contacts.find? (fun c => decide (c.normalizedPhone = phone))

/-- ASCII lowercasing, the case folding SQLite `LIKE` applies by default. -/
def lowerC (c : Char) : Char :=
  if 65 ≤ c.toNat ∧ c.toNat ≤ 90 then Char.ofNat (c.toNat + 32) else c

/-- SQLite `LIKE` pattern matching: `%` matches any sequence (the remaining
pattern must match some suffix of the string), `_` any single character, any
other pattern character matches ASCII case-insensitively. -/
def likeMatch : List Char → List Char → Bool
  | [], s => s.isEmpty
  | p :: ps, s =>
    if p == '%' then
      (List.range (s.length + 1)).any (fun i => likeMatch ps (s.drop i))
    else
      match s with
      | [] => false
      | d :: s1 =>
        if p == '_' then likeMatch ps s1
        else lowerC p == lowerC d && likeMatch ps s1

/-- The `LIKE` pattern built by `searchContacts`: `` `%${query}%` ``. -/
def likePattern (q : List Char) : List Char :=
  '%' :: (q ++ ['%'])

/-- One column test `col LIKE '%' || q || '%'`; a NULL column never
matches. -/
def colLike (q : List Char) : Option (List Char) → Bool
  | none => false
  | some s => likeMatch (likePattern q) s

/-- The WHERE clause of `database.searchContacts` (`server.js` lines 109 to
132): the five columns are tested in the order written in the SQL. -/
def rowMatches (q : List Char) (c : Contact) : Bool :=
  colLike q (some c.normalizedPhone) || colLike q (some c.phone) ||
    colLike q c.name || colLike q c.company || colLike q c.context

/-- Row ordering of `ORDER BY updated_at DESC`. -/
def updGe (a b : Contact) : Prop :=
  b.updatedAt ≤ a.updatedAt

instance : DecidableRel updGe :=
  fun a b => Nat.decLe b.updatedAt a.updatedAt

instance : IsTotal Contact updGe :=
  ⟨fun a b => Nat.le_total b.updatedAt a.updatedAt⟩

instance : IsTrans Contact updGe :=
  ⟨fun _ _ _ hab hbc => Nat.le_trans hbc hab⟩

/-- Embedding of `database.searchContacts`: filter by the five-column
`LIKE` disjunction and sort by `updated_at` descending (SQL leaves the
relative order of equal keys unspecified; a stable sort is one admissible
ordering). -/
def searchContacts (q : List Char) (db : DB) : List Contact :=
  List.insertionSort updGe (db.contacts.filter (rowMatches q))

/-- The update payload assembled by the PUT `/api/contacts/:id` handlers:
each of `name`, `company`, `context` is included exactly when the request
body supplied it (`!== undefined`), and a supplied value may itself be SQL
NULL.  `database.updateContact` interpolates whatever keys it receives; its
only callers are these handlers, which pass exactly this bounded shape. -/
structure Updates where
  name : Option (Option (List Char))
  company : Option (Option (List Char))
  ctx : Option (Option (List Char))
deriving DecidableEq, Repr

/-- Apply an update payload to one row: supplied fields overwrite, the rest
are kept; `updated_at = CURRENT_TIMESTAMP` is always set. -/
def applyUpdates (now : Nat) (u : Updates) (c : Contact) : Contact :=
  { c with
    name := u.name.getD c.name
    company := u.company.getD c.company
    context := u.ctx.getD c.context
    updatedAt := now }

/-- Embedding of `database.updateContact` (`server.js` lines 134 to 163):
`UPDATE contacts SET <supplied fields>, updated_at = CURRENT_TIMESTAMP WHERE
id = ?`; resolves `this.changes`, the number of rows matching the WHERE
clause. -/
def updateContact (now : Nat) (id : Nat) (u : Updates) (db : DB) : DB × Nat :=
  ({ db with
      contacts := db.contacts.map
        (fun c => if c.id = id then applyUpdates now u c else c) },
    (db.contacts.filter (fun c => decide (c.id = id))).length)

/-- An HTTP JSON response as produced by the API layer. -/
structure ApiResponse where
  status : Nat
  success : Bool
  error : Option (List Char)
  message : Option (List Char)
deriving DecidableEq, Repr

/-- Embedding of `app.put('/api/contacts/:id')` from the first `server.js`
variant (lines 491 to 512): build the bounded update payload, call
`updateContact`, answer 200 on a positive change count and 404 otherwise. -/
def putContactHandler1 (now : Nat) (id : Nat) (u : Updates) (db : DB) :
    DB × ApiResponse :=
  let r := updateContact now id u db
  if 0 < r.2 then
    (r.1, ApiResponse.mk 200 true none (some "Contact updated successfully".data))
  else
    (r.1, ApiResponse.mk 404 false (some "Contact not found or no changes made".data) none)

/-- Embedding of `app.put('/api/contacts/:id')` from the second `server.js`
variant (lines 987 to 1011): same update call, but the change count is
discarded and the handler always answers 200 `{success: true}`. -/
def putContactHandler2 (now : Nat) (id : Nat) (u : Updates) (db : DB) :
    DB × ApiResponse :=
  let r := updateContact now id u db
  (r.1, ApiResponse.mk 200 true none none)

/-- Embedding of `Database.logParsedMessage` from the unnamed module (lines
121 to 133): a plain `INSERT INTO parsed_messages ...`, appending one audit
row. -/
def logParsedMessage (now : Nat) (messageId chatId : Int) (contactId : Option Nat)
    (originalText : Option (List Char)) (db : DB) : DB :=
  { db with
    messages := db.messages ++
      [ParsedMsg.mk db.nextMessageId messageId chatId contactId originalText now]
    nextMessageId := db.nextMessageId + 1 }

/-- One reply block composed by the message handler: the canonical number
and the name and company lines shown when present (text decoration elided). -/
structure PhoneReply where
  normalized : List Char
  name : Option (List Char)
  company : Option (List Char)
deriving DecidableEq, Repr

/-- The loop body of `bot.on('message')` for one extracted phone: look the
normalized form up, create the contact when absent (context is the first 200
characters of the message) and re-fetch, then append one reply block. -/
def handleOnePhone (now : Nat) (text : List Char) (acc : DB × List PhoneReply)
    (ph : ParsedPhone) : DB × List PhoneReply :=
  let found := findContactByPhone ph.normalized acc.1
  let db1 := match found with
    | some _ => acc.1
    | none =>
      saveContactReplace now ph.original ph.normalized none none
        (some (text.take 200)) acc.1
  let contact := match found with
    | some c => some c
    | none => findContactByPhone ph.normalized db1
  (db1, acc.2 ++
    [PhoneReply.mk ph.normalized (contact.bind Contact.name)
      (contact.bind Contact.company)])

/-- Embedding of `bot.on('message')` from the first `server.js` variant
(lines 261 to 330): skip blank text, extract phones, and process each phone
in order.  This handler performs no `parsed_messages` insert. -/
def handleMessage (now : Nat) (text : List Char) (db : DB) : DB × List PhoneReply :=
  if (trimL text).isEmpty then (db, [])
  else
    (parsePhoneNumbers text).foldl (handleOnePhone now text) (db, [])

/-! Spec-side definitions, written from the words of the claims so that the
source embeddings can be compared against them. -/

/-- Claim C4 step 1 as worded: strip every character except digits and a
leading `+` (a `+` survives only in first position; all other non-digits are
removed). -/
def specStripClaim (raw : List Char) : List Char :=
  match raw with
  | '+' :: rest => '+' :: rest.filter isDig
  | _ => raw.filter isDig

/-- The normalization procedure exactly as claim C4 words it, on top of
`specStripClaim`: if the stripped result starts with `8`, replace that digit
with `+7`; else if it starts with `7` (hence not with `+7`), prepend `+`;
else if it is exactly 10 digits starting with `9`, prepend `+7`; else if it
is exactly 10 digits, prepend `+7`; otherwise return it unchanged. -/
def specNormalizeClaim (raw : List Char) : List Char :=
  let s := specStripClaim raw
  if s.headD ' ' == '8' then '+' :: '7' :: s.tail
  else if s.headD ' ' == '7' then '+' :: s
  else if decide (s.length = 10) && s.all isDig && (s.headD ' ' == '9') then '+' :: '7' :: s
  else if decide (s.length = 10) && s.all isDig then '+' :: '7' :: s
  else s

/-- The amended claim C4 procedure: step 1 keeps digits and every `+`
(wherever it appears); steps 2 to 6 are unchanged from the claim. -/
def specNormAmended (raw : List Char) : List Char :=
  let s := raw.filter (fun c => isDig c || c == '+')
  if s.headD ' ' == '8' then '+' :: '7' :: s.tail
  else if s.headD ' ' == '7' then '+' :: s
  else if decide (s.length = 10) && s.all isDig && (s.headD ' ' == '9') then '+' :: '7' :: s
  else if decide (s.length = 10) && s.all isDig then '+' :: '7' :: s
  else s

/-- ASCII case-insensitive lists-start-with test, used to express "occurs as
a substring, case-insensitively" independently of SQL `LIKE`. -/
def startsCI : List Char → List Char → Bool
  | [], _ => true
  | _ :: _, [] => false
  | p :: ps, d :: s => lowerC p == lowerC d && startsCI ps s

/-- ASCII case-insensitive substring occurrence of `q` in a string. -/
def containsCI (q : List Char) : List Char → Bool
  | [] => startsCI q []
  | d :: s1 => startsCI q (d :: s1) || containsCI q s1

/-- Occurrence of `q` in an optional column; a NULL column contains
nothing. -/
def occursCI (q : List Char) : Option (List Char) → Bool
  | none => false
  | some s => containsCI q s

/-- The membership predicate of claim C9: the query occurs case-insensitively
as a substring of at least one of the five text columns. -/
def specMatches (q : List Char) (c : Contact) : Bool :=
  occursCI q (some c.normalizedPhone) || occursCI q (some c.phone) ||
    occursCI q c.name || occursCI q c.company || occursCI q c.context

/-- Queries free of the SQL `LIKE` metacharacters `%` and `_`. -/
def wildcardFree (q : List Char) : Bool :=
  q.all (fun c => !(c == '%') && !(c == '_'))

/-- Concrete rows shared by the closed instances of the store theorems. -/
def cw1 : Contact :=
  Contact.mk 1 "89991234567".data "+79991234567".data none none none 0 0

def cw2 : Contact :=
  Contact.mk 2 "84950000000".data "+74950000000".data (some "Ann".data) none none 0 4

def dbW : DB := DB.mk [cw1, cw2] [] 3 1

/-- A row whose name contains "axb" but not the literal string "a%b". -/
def cAxb : Contact :=
  Contact.mk 1 "+70000000000".data "+70000000000".data (some "axb".data) none none 0 0

def dbAxb : DB := DB.mk [cAxb] [] 2 1

/-! Helper lemmas about the normalizer. -/

lemma mem_stripPhone_keep {c : Char} {l : List Char} (h : c ∈ stripPhone l) :
    (isDig c || c == '+') = true := by
  unfold stripPhone at h
  exact (List.mem_filter.mp h).2

lemma stripPhone_eq_self {l : List Char} (h : ∀ c ∈ l, (isDig c || c == '+') = true) :
    stripPhone l = l :=
  List.filter_eq_self.mpr h

lemma stripPhone_stripPhone (l : List Char) : stripPhone (stripPhone l) = stripPhone l :=
  stripPhone_eq_self (fun _ hc => mem_stripPhone_keep hc)

/-- Case analysis of `normalizePhone`: the result is one of the three
`+`-prefixed forms, or the stripped input together with the failure of all
four branch conditions. -/
lemma normalizePhone_cases (p : List Char) :
    normalizePhone p = '+' :: '7' :: (stripPhone p).drop 1 ∨
    normalizePhone p = '+' :: stripPhone p ∨
    normalizePhone p = '+' :: '7' :: stripPhone p ∨
    (normalizePhone p = stripPhone p ∧
      startsWithC (stripPhone p) ['8'] = false ∧
      (startsWithC (stripPhone p) ['7'] && !startsWithC (stripPhone p) ['+', '7']) = false ∧
      re9d9 (stripPhone p) = false ∧ re10d (stripPhone p) = false) := by
  unfold normalizePhone
  by_cases h1 : startsWithC (stripPhone p) ['8'] = true
  · simp [h1]
  · by_cases h2 : (startsWithC (stripPhone p) ['7'] && !startsWithC (stripPhone p) ['+', '7']) = true
    · simp [h1, h2]
    · by_cases h3 : re9d9 (stripPhone p) = true
      · simp [h1, h2, h3]
      · by_cases h4 : re10d (stripPhone p) = true
        · simp [h1, h2, h3, h4]
        · rw [Bool.not_eq_true] at h1 h2 h3 h4
          right; right; right
          refine ⟨?_, h1, h2, h3, h4⟩
          simp [h1, h2, h3, h4]

lemma mem_normalizePhone_keep {p : List Char} {c : Char} (h : c ∈ normalizePhone p) :
    (isDig c || c == '+') = true := by
  rcases normalizePhone_cases p with hc | hc | hc | ⟨hc, hb1, hb2, hb3, hb4⟩ <;> rw [hc] at h
  · simp only [List.mem_cons] at h
    rcases h with rfl | rfl | h
    · decide
    · decide
    · exact mem_stripPhone_keep (List.drop_subset 1 (stripPhone p) h)
  · simp only [List.mem_cons] at h
    rcases h with rfl | h
    · decide
    · exact mem_stripPhone_keep h
  · simp only [List.mem_cons] at h
    rcases h with rfl | rfl | h
    · decide
    · decide
    · exact mem_stripPhone_keep h
  · exact mem_stripPhone_keep h

/-- Fixed point: a `+`-headed string of kept characters normalizes to
itself. -/
lemma normalizePhone_plus_fixed {t : List Char}
    (h : ∀ c ∈ t, (isDig c || c == '+') = true) :
    normalizePhone ('+' :: t) = '+' :: t := by
  have hs : stripPhone ('+' :: t) = '+' :: t := by
    apply stripPhone_eq_self
    intro c hc
    simp only [List.mem_cons] at hc
    rcases hc with rfl | hc
    · decide
    · exact h c hc
  unfold normalizePhone
  rw [hs]
  simp [startsWithC, re9d9, re10d, isDig]

lemma keep_not_special {c : Char} (h : (isDig c || c == '+') = true) :
    (!(c == ' ') && !(c == '-') && !(c == '(') && !(c == ')')) = true := by
  by_cases h1 : c = ' '
  · subst h1; exact absurd h (by decide)
  · by_cases h2 : c = '-'
    · subst h2; exact absurd h (by decide)
    · by_cases h3 : c = '('
      · subst h3; exact absurd h (by decide)
      · by_cases h4 : c = ')'
        · subst h4; exact absurd h (by decide)
        · simp [h1, h2, h3, h4]

lemma re9d9_imp_re10d {n : List Char} (h : re9d9 n = true) : re10d n = true := by
  cases n with
  | nil => simp [re9d9] at h
  | cons c rest =>
    simp only [re9d9, Bool.and_eq_true, beq_iff_eq, decide_eq_true_eq] at h
    obtain ⟨⟨hc, hl⟩, ha⟩ := h
    subst hc
    simp [re10d, List.all_cons, hl, ha, isDig]

/-- The test `/^9\d{9}$/` is the conjunction of `/^\d{10}$/` with a leading
`9`. -/
lemma re9d9_eq (c : Char) (rest : List Char) :
    re9d9 (c :: rest) = (re10d (c :: rest) && (c == '9')) := by
  by_cases h9 : c = '9'
  · subst h9
    by_cases hl : rest.length = 9
    · simp [re9d9, re10d, hl, isDig]
    · have hl10 : ¬(('9' : Char) :: rest).length = 10 := by simp; omega
      simp [re9d9, re10d, hl, hl10]
  · have h9b : (c == '9') = false := by simp [h9]
    simp [re9d9, re10d, h9b]

lemma normalizePhone_eq_specNormAmended (raw : List Char) :
    normalizePhone raw = specNormAmended raw := by
  unfold normalizePhone specNormAmended stripPhone
  generalize (raw.filter (fun c => isDig c || c == '+')) = s
  rcases s with _ | ⟨c, rest⟩
  · simp [startsWithC, re9d9, re10d]
  · by_cases hc8 : c = '8'
    · subst hc8; simp [startsWithC]
    · by_cases hc7 : c = '7'
      · subst hc7; simp [startsWithC]
      · have h1 : (c == '8') = false := by simp [hc8]
        have h2 : (c == '7') = false := by simp [hc7]
        have hre : (decide ((c :: rest).length = 10) && (c :: rest).all isDig) =
            re10d (c :: rest) := rfl
        simp only [startsWithC, List.headD_cons, List.tail_cons, List.drop_one, h1, h2,
          Bool.false_and, Bool.and_true, Bool.false_eq_true, if_false, re9d9_eq, hre]

/-- C5: the normalizer is idempotent: normalizing an already-normalized
phone string changes nothing. -/
theorem c5_normalize_idempotent (p : List Char) :
    normalizePhone (normalizePhone p) = normalizePhone p := by
  rcases normalizePhone_cases p with hc | hc | hc | ⟨hc, hb1, hb2, hb3, hb4⟩ <;> rw [hc]
  · apply normalizePhone_plus_fixed
    intro c hcm
    simp only [List.mem_cons] at hcm
    rcases hcm with rfl | hcm
    · decide
    · exact mem_stripPhone_keep (List.drop_subset 1 (stripPhone p) hcm)
  · exact normalizePhone_plus_fixed (fun c hcm => mem_stripPhone_keep hcm)
  · apply normalizePhone_plus_fixed
    intro c hcm
    simp only [List.mem_cons] at hcm
    rcases hcm with rfl | hcm
    · decide
    · exact mem_stripPhone_keep hcm
  · simp only [normalizePhone, stripPhone_stripPhone, hb1, hb2, hb3, hb4]
    simp

/-- C10: every character of a normalized phone is a decimal digit or `+`;
in particular the stored normalized key never contains a space, hyphen, or
parenthesis. -/
theorem c10_normalized_charset (raw : List Char) :
    (normalizePhone raw).all (fun c => isDig c || c == '+') = true ∧
    (normalizePhone raw).all
      (fun c => !(c == ' ') && !(c == '-') && !(c == '(') && !(c == ')')) = true := by
  constructor
  · exact List.all_eq_true.mpr (fun c hcm => mem_normalizePhone_keep hcm)
  · exact List.all_eq_true.mpr (fun c hcm => keep_not_special (mem_normalizePhone_keep hcm))

/-- C4 counterexample: the claim strips every `+` that is not leading, but
the source regex `/[^\d+]/g` keeps every `+`.  On the input "1+1" the
claimed procedure yields "11" while the code yields "1+1". -/
theorem c4_claim_counterexample :
    specNormalizeClaim ['1', '+', '1'] = ['1', '1'] ∧
    normalizePhone ['1', '+', '1'] = ['1', '+', '1'] ∧
    normalizePhone ['1', '+', '1'] ≠ specNormalizeClaim ['1', '+', '1'] := by
  decide

/-- C4 (amended): `normalize` equals the claimed procedure once step 1 is
amended to keep every `+` (not only a leading one); the claimed concrete
values all hold. -/
theorem c4_normalize_procedure :
    (∀ raw, normalizePhone raw = specNormAmended raw) ∧
    normalizePhone [] = [] ∧
    normalizePhone "89991234567".data = "+79991234567".data ∧
    normalizePhone "+79991234567".data = "+79991234567".data ∧
    normalizePhone "79991234567".data = "+79991234567".data ∧
    normalizePhone "9991234567".data = "+79991234567".data := by
  refine ⟨normalizePhone_eq_specNormAmended, by decide, by decide, by decide, by decide, by decide⟩

/-- C1 counterexample: `database.saveContact` of the first `server.js`
variant uses `INSERT OR REPLACE`, so saving a second original with the same
normalized phone replaces the row rather than being a no-op: afterwards the
single row with that normalized phone holds the second original and the
second metadata. -/
theorem c1_claim_counterexample :
    ((saveContactReplace 1 "+79991234567".data "+79991234567".data (some "Bob".data) none none
        (saveContactReplace 0 "89991234567".data "+79991234567".data none none none
          emptyDB)).contacts.map Contact.phone) = ["+79991234567".data] ∧
    ((saveContactReplace 1 "+79991234567".data "+79991234567".data (some "Bob".data) none none
        (saveContactReplace 0 "89991234567".data "+79991234567".data none none none
          emptyDB)).contacts.map Contact.name) = [some "Bob".data] ∧
    ("89991234567".data : List Char) ≠ "+79991234567".data := by
  decide

/-- C1 (amended): insert-or-ignore first-write-wins holds for
`Database.saveContact` of the unnamed module and for the second `server.js`
variant: starting from a state free of the involved keys, the second save
with the same normalized phone is a no-op, and exactly one row with that
normalized phone exists, holding the first original and the first
metadata. -/
theorem c1_save_ignore_first_write_wins (db : DB) (p1 p2 n : List Char)
    (nm1 co1 cx1 nm2 co2 cx2 : Option (List Char)) (t1 t2 : Nat)
    (h : ∀ c ∈ db.contacts, c.phone ≠ p1 ∧ c.phone ≠ p2 ∧ c.normalizedPhone ≠ n) :
    saveContactIgnore t2 p2 n nm2 co2 cx2 (saveContactIgnore t1 p1 n nm1 co1 cx1 db) =
      saveContactIgnore t1 p1 n nm1 co1 cx1 db ∧
    (saveContactIgnore t1 p1 n nm1 co1 cx1 db).contacts.filter
        (fun c => decide (c.normalizedPhone = n)) =
      [Contact.mk db.nextContactId p1 n nm1 co1 cx1 t1 t1] := by
  have h1 : (db.contacts.any
      (fun c => decide (c.phone = p1) || decide (c.normalizedPhone = n))) = false := by
    rw [List.any_eq_false]
    intro c hc
    simp [(h c hc).1, (h c hc).2.2]
  have hs1 : saveContactIgnore t1 p1 n nm1 co1 cx1 db =
      { db with
        contacts := db.contacts ++ [Contact.mk db.nextContactId p1 n nm1 co1 cx1 t1 t1]
        nextContactId := db.nextContactId + 1 } := by
    unfold saveContactIgnore
    simp [h1]
  have h2 : ((db.contacts ++ [Contact.mk db.nextContactId p1 n nm1 co1 cx1 t1 t1]).any
      (fun c => decide (c.phone = p2) || decide (c.normalizedPhone = n))) = true := by
    simp
  constructor
  · rw [hs1]
    unfold saveContactIgnore
    simp only [h2]
    simp
  · rw [hs1]
    simp only [List.filter_append]
    have hnil : db.contacts.filter (fun c => decide (c.normalizedPhone = n)) = [] := by
      rw [List.filter_eq_nil_iff]
      intro c hc
      simp [(h c hc).2.2]
    rw [hnil]
    simp

/-- Closed instance of the C1 amended theorem at a concrete input: two
insert-or-ignore saves of "89991234567" and "+79991234567" under the same
normalized key leave one row holding the first original. -/
theorem c1_save_ignore_first_write_wins_witness :
    saveContactIgnore 5 "+79991234567".data "+79991234567".data (some "Bob".data) none none
        (saveContactIgnore 3 "89991234567".data "+79991234567".data none none none emptyDB) =
      saveContactIgnore 3 "89991234567".data "+79991234567".data none none none emptyDB ∧
    (saveContactIgnore 3 "89991234567".data "+79991234567".data none none none
        emptyDB).contacts.filter
        (fun c => decide (c.normalizedPhone = "+79991234567".data)) =
      [Contact.mk 1 "89991234567".data "+79991234567".data none none none 3 3] :=
  c1_save_ignore_first_write_wins emptyDB "89991234567".data "+79991234567".data
    "+79991234567".data none none none (some "Bob".data) none none 3 5
    (by intro c hc; simp [emptyDB] at hc)

/-- C2 counterexample: the PUT handler of the second `server.js` variant
never inspects the change count: for an id with no contact it still answers
200 with the success shape, not 404. -/
theorem c2_claim_counterexample :
    emptyDB.contacts = [] ∧
    (putContactHandler2 0 1 (Updates.mk (some (some "X".data)) none none) emptyDB).2.status
      = 200 ∧
    (putContactHandler2 0 1 (Updates.mk (some (some "X".data)) none none) emptyDB).2.success
      = true := by
  decide

/-- C2 (amended): for an id identifying no contact, `updateContact` reports
change count 0, and the PUT handler of the first `server.js` variant answers
404 with the failure shape carrying an error string. -/
theorem c2_update_missing_not_found (db : DB) (id : Nat) (u : Updates) (now : Nat)
    (h : ∀ c ∈ db.contacts, c.id ≠ id) :
    (updateContact now id u db).2 = 0 ∧
    (putContactHandler1 now id u db).2.status = 404 ∧
    (putContactHandler1 now id u db).2.success = false ∧
    (putContactHandler1 now id u db).2.error.isSome = true := by
  have hchanges : (updateContact now id u db).2 = 0 := by
    unfold updateContact
    simp only []
    rw [List.length_eq_zero, List.filter_eq_nil_iff]
    intro c hc
    simp [h c hc]
  refine ⟨hchanges, ?_, ?_, ?_⟩ <;>
    · unfold putContactHandler1
      simp [hchanges]

/-- Closed instance of the C2 amended theorem: updating id 1 in the empty
store changes nothing and yields the 404 failure shape. -/
theorem c2_update_missing_not_found_witness :
    (updateContact 0 1 (Updates.mk (some (some "X".data)) none none) emptyDB).2 = 0 ∧
    (putContactHandler1 0 1 (Updates.mk (some (some "X".data)) none none) emptyDB).2.status
      = 404 ∧
    (putContactHandler1 0 1 (Updates.mk (some (some "X".data)) none none) emptyDB).2.success
      = false ∧
    (putContactHandler1 0 1 (Updates.mk (some (some "X".data)) none none)
        emptyDB).2.error.isSome = true :=
  c2_update_missing_not_found emptyDB 1 (Updates.mk (some (some "X".data)) none none) 0
    (by intro c hc; simp [emptyDB] at hc)

lemma handleOnePhone_messages (now : Nat) (text : List Char) (acc : DB × List PhoneReply)
    (ph : ParsedPhone) : (handleOnePhone now text acc ph).1.messages = acc.1.messages := by
  unfold handleOnePhone
  cases findContactByPhone ph.normalized acc.1 <;> simp [saveContactReplace]

lemma foldl_handleOnePhone_messages (now : Nat) (text : List Char) :
    ∀ (l : List ParsedPhone) (acc : DB × List PhoneReply),
      (l.foldl (handleOnePhone now text) acc).1.messages = acc.1.messages := by
  intro l
  induction l with
  | nil => intro acc; rfl
  | cons ph rest ih =>
    intro acc
    rw [List.foldl_cons, ih, handleOnePhone_messages]

/-- C3 counterexample: a message whose text contains exactly one phone leads
the handler to create the contact, yet zero `parsed_messages` rows are
appended — the handler never calls `logParsedMessage`. -/
theorem c3_claim_counterexample :
    (parsePhoneNumbers "89991234567".data).length = 1 ∧
    (handleMessage 0 "89991234567".data emptyDB).1.contacts.length = 1 ∧
    (handleMessage 0 "89991234567".data emptyDB).1.messages.length = 0 := by
  decide

/-- C3 (amended): the message handler appends no audit records at all — the
`parsed_messages` table is left untouched by every inbound message;
`Database.logParsedMessage`, which no code in the repository invokes, would
append exactly one audit row and leave the contacts table unchanged (so an
audit append or its failure never rolls back a contact write). -/
theorem c3_handler_no_audit_append (now : Nat) (text : List Char) (db : DB)
    (mi ci : Int) (cid : Option Nat) (ot : Option (List Char)) :
    (handleMessage now text db).1.messages = db.messages ∧
    (logParsedMessage now mi ci cid ot db).contacts = db.contacts ∧
    (logParsedMessage now mi ci cid ot db).messages =
      db.messages ++ [ParsedMsg.mk db.nextMessageId mi ci cid ot now] := by
  refine ⟨?_, rfl, rfl⟩
  unfold handleMessage
  by_cases hb : (trimL text).isEmpty = true
  · simp [hb]
  · simp only [hb, Bool.false_eq_true, if_false]
    exact foldl_handleOnePhone_messages now text (parsePhoneNumbers text) (db, [])

/-- C8: updating a contact's name through the PUT path rewrites the matching
row with only `name` and `updatedAt` changed (the structure update shows
`id`, `phone`, `normalizedPhone`, `company`, `context`, `createdAt` carried
over), leaves every other row identical, and preserves the row count. -/
theorem c8_update_name_frame (db : DB) (id : Nat) (x : List Char) (now : Nat) :
    ((updateContact now id (Updates.mk (some (some x)) none none) db).1.contacts.length =
      db.contacts.length) ∧
    ∀ i (h1 : i < db.contacts.length)
      (h2 : i < (updateContact now id (Updates.mk (some (some x)) none none) db).1.contacts.length),
      (updateContact now id (Updates.mk (some (some x)) none none) db).1.contacts.get ⟨i, h2⟩ =
        (if (db.contacts.get ⟨i, h1⟩).id = id then
          { db.contacts.get ⟨i, h1⟩ with name := some x, updatedAt := now }
        else db.contacts.get ⟨i, h1⟩) := by
  constructor
  · simp [updateContact]
  · intro i h1 h2
    simp only [updateContact, List.get_eq_getElem, List.getElem_map]
    by_cases hid : db.contacts[i].id = id
    · simp [hid, applyUpdates]
    · simp [hid]

/-- Closed instance of the C8 frame theorem: in a two-row store, updating the
name of id 1 rewrites row 0 with only name and updatedAt changed and leaves
row 1 identical. -/
theorem c8_update_name_frame_witness :
    (updateContact 9 1 (Updates.mk (some (some "X".data)) none none) dbW).1.contacts.get
        ⟨0, by decide⟩ = { cw1 with name := some "X".data, updatedAt := 9 } ∧
    (updateContact 9 1 (Updates.mk (some (some "X".data)) none none) dbW).1.contacts.get
        ⟨1, by decide⟩ = cw2 := by
  have h0 := (c8_update_name_frame dbW 1 "X".data 9).2 0 (by decide) (by decide)
  have h1 := (c8_update_name_frame dbW 1 "X".data 9).2 1 (by decide) (by decide)
  constructor
  · rw [h0]; decide
  · rw [h1]; decide

/-! Helper lemmas about the extractor. -/

lemma lastGoodIdx_spec {run : List Char} {p : Nat} (h : lastGoodIdx run = some p) :
    7 ≤ p ∧ p < run.length ∧ isDig (run.getD p ' ') = true := by
  unfold lastGoodIdx at h
  have hmem : p ∈ (List.range run.length).filter
      (fun i => decide (7 ≤ i) && isDig (run.getD i ' ')) := by
    rcases List.getLast?_eq_some_iff.mp h with ⟨ys, hys⟩
    rw [hys]
    simp
  rw [List.mem_filter, List.mem_range] at hmem
  obtain ⟨hr, hp⟩ := hmem
  simp only [Bool.and_eq_true, decide_eq_true_eq] at hp
  exact ⟨hp.1, hr, hp.2⟩

lemma ne_plus_of_isDig {c : Char} (h : isDig c = true) : (c == '+') = false := by
  by_cases hc : c = '+'
  · subst hc; exact absurd h (by decide)
  · simp [hc]

lemma not_ws_of_isDig {c : Char} (h : isDig c = true) : isWsChar c = false := by
  simp only [isDig, Bool.and_eq_true, decide_eq_true_eq] at h
  simp only [isWsChar, decide_eq_false_iff_not]
  omega

/-- A list starting and ending on non-whitespace is its own trim. -/
lemma trimL_eq_self_of_ends {a e : Char} {mid : List Char}
    (ha : isWsChar a = false) (he : isWsChar e = false) :
    trimL (a :: (mid ++ [e])) = a :: (mid ++ [e]) := by
  unfold trimL
  have h1 : List.dropWhile isWsChar (a :: (mid ++ [e])) = a :: (mid ++ [e]) := by
    rw [List.dropWhile_cons]
    simp [ha]
  rw [h1]
  have h2 : (a :: (mid ++ [e])).reverse = e :: (mid.reverse ++ [a]) := by simp
  rw [h2, List.dropWhile_cons]
  simp [he]

/-- Structure of a successful body match: the produced match is a digit, then
the first `p + 1` characters of the class run (the last of which is a digit),
and it satisfies the shape checker with interior width 7, both bare and with
a `+` prefix; it is also invariant under trimming. -/
lemma matchBody_shape {cs m r : List Char} (h : matchBody cs = some (m, r)) :
    matchShape 7 m = true ∧ matchShape 7 ('+' :: m) = true ∧
    trimL m = m ∧ trimL ('+' :: m) = '+' :: m := by
  unfold matchBody at h
  cases cs with
  | nil => simp at h
  | cons d rest =>
    by_cases hd : isDig d = true
    · simp only [hd, if_true] at h
      cases hp : lastGoodIdx (rest.takeWhile isClassChar) with
      | none => rw [hp] at h; simp at h
      | some p =>
        rw [hp] at h
        simp only [Option.some.injEq, Prod.mk.injEq] at h
        obtain ⟨hm, hr⟩ := h
        obtain ⟨hp7, hplen, hpdig⟩ := lastGoodIdx_spec hp
        set run := rest.takeWhile isClassChar with hrun
        set t := run.take (p + 1) with ht
        have htlen : t.length = p + 1 := by
          rw [ht, List.length_take]
          omega
        have htne : t ≠ [] := by
          intro hcon
          rw [hcon] at htlen
          simp at htlen
        have hgetp : t[p]? = some (run.getD p ' ') := by
          rw [ht, List.getElem?_take, if_pos (Nat.lt_succ_self p),
            List.getD_eq_getElem?_getD]
          cases hge : run[p]? with
          | none => rw [List.getElem?_eq_none_iff] at hge; omega
          | some v => simp
        have hlast : t.getLast? = some (run.getD p ' ') := by
          rw [List.getLast?_eq_getElem?, htlen]
          simpa using hgetp
        have hdroplast : t.dropLast.length = p := by
          rw [List.length_dropLast, htlen]
          omega
        have hclass : t.dropLast.all isClassChar = true := by
          rw [List.all_eq_true]
          intro c hc
          have hc2 : c ∈ run :=
        List.take_subset _ _ (List.dropLast_subset t hc)
          exact List.mem_takeWhile_imp hc2
        obtain ⟨ys, hys⟩ := List.getLast?_eq_some_iff.mp hlast
        have hpdig2 : isDig (run[p]?.getD ' ') = true := by
          rw [← List.getD_eq_getElem?_getD]
          exact hpdig
        have hshape : matchShape 7 (d :: t) = true := by
          unfold matchShape
          simp only [List.headD_cons, ne_plus_of_isDig hd, Bool.false_eq_true, if_false]
          simp only [hd, hlast, hclass, hdroplast, Bool.true_and, Bool.and_true]
          simp [hpdig, hpdig2, hp7]
        have hshapePlus : matchShape 7 ('+' :: d :: t) = true := by
          unfold matchShape
          simp only [List.headD_cons]
          rw [if_pos (by decide)]
          simp only [List.tail_cons]
          unfold matchShape at hshape
          simp only [List.headD_cons, ne_plus_of_isDig hd, Bool.false_eq_true, if_false]
            at hshape
          exact hshape
        have hdt : d :: t = d :: (ys ++ [run.getD p ' ']) := by rw [← hys]
        have htrim : trimL (d :: t) = d :: t := by
          rw [hdt]
          exact trimL_eq_self_of_ends (not_ws_of_isDig hd) (not_ws_of_isDig hpdig)
        have htrimPlus : trimL ('+' :: d :: t) = '+' :: d :: t := by
          have : '+' :: d :: t = '+' :: ((d :: ys) ++ [run.getD p ' ']) := by
            rw [hdt]
            rfl
          rw [this]
          exact trimL_eq_self_of_ends (by decide) (not_ws_of_isDig hpdig)
        rw [hm] at hshape hshapePlus htrim htrimPlus
        exact ⟨hshape, hshapePlus, htrim, htrimPlus⟩
    · simp [hd] at h

/-- Every match produced by the fuelled scanner satisfies the shape checker
and is invariant under trimming. -/
lemma scanFuel_match_shape :
    ∀ (f : Nat) (cs m : List Char), m ∈ scanFuel f cs →
      matchShape 7 m = true ∧ trimL m = m := by
  intro f
  induction f with
  | zero => intro cs m h; simp [scanFuel] at h
  | succ f ih =>
    intro cs m h
    cases cs with
    | nil => simp [scanFuel] at h
    | cons c rest =>
      unfold scanFuel at h
      by_cases hc : (c == '+') = true
      · rw [if_pos hc] at h
        cases hb : matchBody rest with
        | none => rw [hb] at h; exact ih rest m h
        | some pr =>
          obtain ⟨mm, rr⟩ := pr
          rw [hb] at h
          simp only [List.mem_cons] at h
          rcases h with rfl | h
          · have hsh := matchBody_shape hb
            exact ⟨hsh.2.1, hsh.2.2.2⟩
          · exact ih rr m h
      · rw [if_neg (by simpa using hc)] at h
        by_cases hdc : isDig c = true
        · rw [if_pos hdc] at h
          cases hb : matchBody (c :: rest) with
          | none => rw [hb] at h; exact ih rest m h
          | some pr =>
            obtain ⟨mm, rr⟩ := pr
            rw [hb] at h
            simp only [List.mem_cons] at h
            rcases h with rfl | h
            · have hsh := matchBody_shape hb
              exact ⟨hsh.1, hsh.2.2.1⟩
            · exact ih rr m h
        · rw [if_neg (by simpa using hdc)] at h
          exact ih rest m h

/-- C7 counterexample: the code's pattern requires only 7 interior
characters, not 9: the 9-digit run "123456789" is matched, and it fails the
9-interior shape demanded by the claim. -/
theorem c7_claim_counterexample :
    "123456789".data ∈ scan "123456789".data ∧
    matchShape 9 "123456789".data = false := by
  decide

/-- C7 (amended): every match produced by the extractor is an optional `+`
followed by a run anchored on digits whose interior characters are drawn
from digits, whitespace, hyphens, and parentheses, with at least 7 interior
characters (hence at least 9 characters from first to last digit); no
shorter run is matched. -/
theorem c7_match_shape (cs m : List Char) (h : m ∈ scan cs) : matchShape 7 m = true :=
  (scanFuel_match_shape cs.length cs m h).1

/-- Closed instance of the C7 amended theorem: the match "123456789"
satisfies the 7-interior shape. -/
theorem c7_match_shape_witness : matchShape 7 "123456789".data = true :=
  c7_match_shape "123456789".data "123456789".data (by decide)

/-- C6: the extractor yields one entry per regex match in left-to-right
order; each entry's original is the trimmed matched substring and its
normalized field equals the normalizer applied to that original (the source
normalizes the untrimmed match, which is equal because a match never starts
or ends with whitespace); no match gives the empty sequence; the claimed
concrete example extracts exactly "+79991234567". -/
theorem c6_extract_entries (text : List Char) :
    (parsePhoneNumbers text =
      (scan text).map (fun m => ParsedPhone.mk (trimL m) (normalizePhone (trimL m)))) ∧
    (scan text = [] → parsePhoneNumbers text = []) ∧
    parsePhoneNumbers "call me at 8-999-123-45-67 please".data =
      [ParsedPhone.mk "8-999-123-45-67".data "+79991234567".data] := by
  refine ⟨?_, ?_, by decide⟩
  · unfold parsePhoneNumbers
    apply List.map_congr_left
    intro m hm
    rw [(scanFuel_match_shape text.length text m hm).2]
  · intro h
    unfold parsePhoneNumbers
    rw [h]
    rfl

/-- Closed instance of the C6 theorem: a text without digits extracts the
empty sequence. -/
theorem c6_extract_entries_witness : parsePhoneNumbers "no numbers here".data = [] :=
  (c6_extract_entries "no numbers here".data).2.1 (by decide)

/-! Helper lemmas about SQL LIKE matching. -/

lemma likeMatch_pct_any : ∀ s : List Char, likeMatch ['%'] s = true := by
  intro s
  unfold likeMatch
  rw [if_pos (by decide), List.any_eq_true]
  refine ⟨s.length, by simp, ?_⟩
  simp [likeMatch]

lemma likeMatch_append_pct {q : List Char} (hq : wildcardFree q = true) :
    ∀ s : List Char, likeMatch (q ++ ['%']) s = startsCI q s := by
  induction q with
  | nil =>
    intro s
    simpa [startsCI] using likeMatch_pct_any s
  | cons c q1 ih =>
    intro s
    unfold wildcardFree at hq
    rw [List.all_cons] at hq
    simp only [Bool.and_eq_true, Bool.not_eq_true'] at hq
    obtain ⟨⟨hcp, hcu⟩, hq1⟩ := hq
    have hq1w : wildcardFree q1 = true := List.all_eq_true.mpr (by
      have := List.all_eq_true.mp hq1
      exact this)
    cases s with
    | nil =>
      unfold likeMatch
      simp [hcp, startsCI]
    | cons d s1 =>
      unfold likeMatch
      simp only [List.cons_append, hcp, Bool.false_eq_true, if_false, hcu]
      rw [ih hq1w s1]
      simp [startsCI]

lemma containsCI_eq_true_iff (q : List Char) :
    ∀ s : List Char, containsCI q s = true ↔
      ∃ i, i ≤ s.length ∧ startsCI q (s.drop i) = true := by
  intro s
  induction s with
  | nil =>
    unfold containsCI
    constructor
    · intro h
      exact ⟨0, by simp, h⟩
    · rintro ⟨i, hi, h⟩
      simpa using h
  | cons d s1 ih =>
    unfold containsCI
    rw [Bool.or_eq_true, ih]
    constructor
    · rintro (h | ⟨i, hi, h⟩)
      · exact ⟨0, by simp, by simpa using h⟩
      · exact ⟨i + 1, by simpa using hi, by simpa using h⟩
    · rintro ⟨i, hi, h⟩
      cases i with
      | zero => left; simpa using h
      | succ j => right; exact ⟨j, by simpa using hi, by simpa using h⟩

lemma likeMatch_contains {q : List Char} (hq : wildcardFree q = true) (s : List Char) :
    likeMatch ('%' :: (q ++ ['%'])) s = containsCI q s := by
  have h1 : likeMatch ('%' :: (q ++ ['%'])) s = true ↔ containsCI q s = true := by
    rw [containsCI_eq_true_iff]
    unfold likeMatch
    rw [if_pos (by decide), List.any_eq_true]
    constructor
    · rintro ⟨i, hir, h⟩
      rw [likeMatch_append_pct hq] at h
      exact ⟨i, by simpa [Nat.lt_succ_iff] using hir, h⟩
    · rintro ⟨i, hi, h⟩
      refine ⟨i, by simp [Nat.lt_succ_iff, hi], ?_⟩
      rw [likeMatch_append_pct hq]
      exact h
  cases hL : likeMatch ('%' :: (q ++ ['%'])) s <;> cases hR : containsCI q s <;> simp_all

lemma rowMatches_eq_specMatches {q : List Char} (hq : wildcardFree q = true) (c : Contact) :
    rowMatches q c = specMatches q c := by
  unfold rowMatches specMatches colLike occursCI likePattern
  cases c.name <;> cases c.company <;> cases c.context <;>
    simp [likeMatch_contains hq]

/-- C9 counterexample: a query containing the `LIKE` wildcard `%` is not
interpreted as a literal substring: searching for "a%b" returns the row
whose name is "axb", although "a%b" occurs in none of its columns. -/
theorem c9_claim_counterexample :
    cAxb ∈ searchContacts "a%b".data dbAxb ∧
    specMatches "a%b".data cAxb = false := by
  decide

/-- C9 (amended): for every query free of the `LIKE` metacharacters `%` and
`_`, the search returns exactly the contacts in which the query occurs ASCII
case-insensitively as a substring of one of phone, normalizedPhone, name,
company, or context, and the result is ordered by `updatedAt` descending. -/
theorem c9_search_substring_sorted (q : List Char) (db : DB)
    (h : wildcardFree q = true) :
    (∀ c : Contact, c ∈ searchContacts q db ↔
      (c ∈ db.contacts ∧ specMatches q c = true)) ∧
    List.Sorted updGe (searchContacts q db) := by
  constructor
  · intro c
    unfold searchContacts
    rw [List.Perm.mem_iff (List.perm_insertionSort updGe _), List.mem_filter,
      rowMatches_eq_specMatches h]
  · exact List.sorted_insertionSort updGe _

/-- Closed instance of the C9 amended theorem: searching "ann" in the
two-row store returns the row named "Ann" (case-insensitive hit) and the
result is sorted by `updatedAt` descending. -/
theorem c9_search_substring_sorted_witness :
    cw2 ∈ searchContacts "ann".data dbW ∧
    List.Sorted updGe (searchContacts "ann".data dbW) := by
  have h := c9_search_substring_sorted "ann".data dbW (by decide)
  exact ⟨(h.1 cw2).mpr (by decide), h.2⟩

end PhoneBot
